import Mathlib

/-!
Shallow embedding of `src/drive_utils.py`: the Counter (`count_items`), the
Top-Level Lister (`get_top_level_folders`), the Leaf Copy (`copy_file`) and the
Tree Copier (`copy_folder`), together with theorems settling the spec claims.

The remote Drive is modelled as a tree: a folder node carries the pages its
children listing comes back in, plus an optional injected transport failure
(`failAt i` makes the listing request for page index `i` raise an HttpError).
Copy operations additionally record their remote side effects as an ordered
event trace and draw fresh identifiers from a counter.
-/

namespace DriveUtils

/-- A remote Drive entry as the service reports it: a file (leaf) with a mime
type and downloadable content chunks, or a folder whose children listing comes
back in pages; `failAt` injects an HTTP error on the listing request for the
page with that index. -/
inductive Node : Type where
  | leaf (i nm mime : String) (chunks : List (List Nat)) : Node
  | container (i nm : String) (failAt : Option Nat) (pages : List (List Node)) : Node

/-- Python substring containment: `pat in s`. -/
def strContains (s pat : String) : Bool := decide (pat.toList <:+: s.toList)

def folderMime : String := "application/vnd.google-apps.folder"

/-- The mimeType the listing reports for an entry. -/
def nodeMime : Node → String
  | .leaf _ _ m _ => m
  | .container _ _ _ _ => folderMime

/-- The query of count_items keeps an entry iff its mimeType is the folder mime
or its mimeType does not contain "application/vnd.google-apps.file"; the server
never returns filtered-out entries. -/
def countKeeps (x : Node) : Bool :=
  (nodeMime x == folderMime) || !(strContains (nodeMime x) "application/vnd.google-apps.file")

/-- Whether the cursor loop over a listing with `k` pages hits the injected
failure: the loop always makes at least one request, and otherwise one request
per page, at indices 0, 1, .... -/
def failHit (failAt : Option Nat) (k : Nat) : Bool :=
  match failAt with
  | none => false
  | some j => decide (j < max 1 k)

mutual

/-- Shallow embedding of count_items from drive_utils.py; the result mirrors
the Python return type Tuple of three Optional ints. -/
def count_items (recursive : Bool) : Node → Option Nat × Option Nat × Option Nat
  | .leaf _ _ _ _ => (some 0, some 0, some 0)
  | .container _ _ failAt pages => countPagesLoop recursive failAt 0 pages 0 0 0

/-- The while-loop of count_items: one iteration per page request, `j` being
the index of the page about to be requested and `remaining` the pages still to
come; an HttpError on any request aborts with the all-None triple, and the
loop exits after a page that comes with no continuation token (no page left). -/
def countPagesLoop (recursive : Bool) (failAt : Option Nat) (j : Nat)
    (remaining : List (List Node)) (fc foc nfc : Nat) :
    Option Nat × Option Nat × Option Nat :=
  if failAt = some j then (none, none, none)
  else
    match remaining with
    | [] => (some fc, some foc, some nfc)
    | p :: rest =>
      let acc2 := countFold recursive p fc foc nfc
      match rest with
      | [] => (some acc2.1, some acc2.2.1, some acc2.2.2)
      | q :: rest2 =>
        countPagesLoop recursive failAt (j + 1) (q :: rest2) acc2.1 acc2.2.1 acc2.2.2

/-- The for-loop of count_items over one page: folders bump folder_count and,
in recursive mode, merge a successful sub-count (adding sub_nested + 1 into
nested_folder_count) while a failed sub-count is dropped; files bump
file_count. An entry with the folder mime always passes the query filter, so
the countKeeps check only matters on the file arm. -/
def countFold (recursive : Bool) (items : List Node) (fc foc nfc : Nat) :
    Nat × Nat × Nat :=
  match items with
  | [] => (fc, foc, nfc)
  | .leaf i nm m ch :: rest =>
    if countKeeps (.leaf i nm m ch) then countFold recursive rest (fc + 1) foc nfc
    else countFold recursive rest fc foc nfc
  | .container i nm fa pgs :: rest =>
    if recursive then
      match count_items true (.container i nm fa pgs) with
      | (some sf, some sfo, some sn) =>
        countFold recursive rest (fc + sf) (foc + 1 + sfo) (nfc + (sn + 1))
      | _ => countFold recursive rest fc (foc + 1) nfc
    else countFold recursive rest fc (foc + 1) nfc

end

/-- One listed entry of the folders-only query of get_top_level_folders:
folders yield their (id, name) pair, files are filtered out by the query. -/
def folderEntry : Node → Option (String × String)
  | .container i n _ _ => some (i, n)
  | .leaf _ _ _ _ => none

/-- The while-loop of get_top_level_folders, accumulating pages in order. -/
def topPagesLoop (failAt : Option Nat) (j : Nat) (remaining : List (List Node))
    (acc : List (String × String)) : Option (List (String × String)) :=
  if failAt = some j then none
  else
    match remaining with
    | [] => some acc
    | p :: rest =>
      match rest with
      | [] => some (acc ++ p.filterMap folderEntry)
      | q :: rest2 => topPagesLoop failAt (j + 1) (q :: rest2) (acc ++ p.filterMap folderEntry)

/-- Shallow embedding of get_top_level_folders from drive_utils.py. -/
def get_top_level_folders : Node → Option (List (String × String))
  | .leaf _ _ _ _ => some []
  | .container _ _ failAt pages => topPagesLoop failAt 0 pages []

/-- Transport-failure injection for the non-listing service calls made by
copy_file and copy_folder, keyed by the entry the call is about. -/
structure Env where
  createFails : String → String → Bool
  getFails : String → Bool
  serverCopyFails : String → Bool
  downloadFails : String → Bool
  uploadFails : String → Bool

/-- Remote side effects performed by the copy operations, in order. -/
inductive Event : Type where
  | createdFolder (nm parent newId : String) : Event
  | serverCopied (srcId nm parent newId : String) : Event
  | downloaded (srcId : String) (chunks : List (List Nat)) : Event
  | uploaded (nm parent mime : String) (content : List Nat) (resumable : Bool)
      (newId : String) : Event
deriving DecidableEq

/-- An io.BytesIO buffer: its contents and the current stream position. -/
structure Buffer where
  data : List Nat
  pos : Nat
deriving DecidableEq

/-- Writing one downloaded chunk advances the position past it. -/
def writeChunk (b : Buffer) (c : List Nat) : Buffer := ⟨b.data ++ c, b.pos + c.length⟩

/-- The MediaIoBaseDownload loop: next_chunk appends chunks until done. -/
def downloadAll (chunks : List (List Nat)) (b : Buffer) : Buffer :=
  chunks.foldl writeChunk b

/-- file_content.seek(0). -/
def seekZero (b : Buffer) : Buffer := ⟨b.data, 0⟩

/-- MediaIoBaseUpload reads the buffer from its current position on. -/
def readOut (b : Buffer) : List Nat := b.data.drop b.pos

/-- The identifier the remote service assigns to the n-th entry created. -/
def freshId (n : Nat) : String := "id" ++ toString n

/-- Shallow embedding of copy_file from drive_utils.py: the Optional id of the
copy, the next fresh-id counter, and the remote side effects in order. -/
def copy_file (env : Env) (fileId mime : String) (chunks : List (List Nat))
    (destId nm : String) (n : Nat) : Option String × Nat × List Event :=
  if env.getFails fileId then (none, n, [])
  else if strContains mime "application/vnd.google-apps." then
    if env.serverCopyFails fileId then (none, n, [])
    else (some (freshId n), n + 1, [Event.serverCopied fileId nm destId (freshId n)])
  else if env.downloadFails fileId then (none, n, [])
  else
    let buf := seekZero (downloadAll chunks ⟨[], 0⟩)
    if env.uploadFails fileId then (none, n, [Event.downloaded fileId chunks])
    else (some (freshId n), n + 1,
      [Event.downloaded fileId chunks,
       Event.uploaded nm destId mime (readOut buf) true (freshId n)])

/-- Python truthiness of the Optional folder_name argument of copy_folder. -/
def nameGiven : Option String → Bool
  | none => false
  | some s => !(s == "")

mutual

/-- Shallow embedding of copy_folder from drive_utils.py: create the named
destination folder when a name is given (an HttpError there is caught and
yields None), then page through the source's children copying each one,
ignoring per-child results; a listing failure aborts with None but keeps the
side effects already performed. -/
def copy_folder (env : Env) (src : Node) (destId : String)
    (folderName : Option String) (n : Nat) : Option String × Nat × List Event :=
  match src with
  | .leaf _ _ _ _ =>
    if nameGiven folderName then
      if env.createFails destId (folderName.getD "") then (none, n, [])
      else (some (freshId n), n + 1,
        [Event.createdFolder (folderName.getD "") destId (freshId n)])
    else (some destId, n, [])
  | .container _ _ failAt pages =>
    if nameGiven folderName then
      if env.createFails destId (folderName.getD "") then (none, n, [])
      else copyPagesLoop env failAt 0 pages (freshId n) (n + 1)
        [Event.createdFolder (folderName.getD "") destId (freshId n)]
    else copyPagesLoop env failAt 0 pages destId n []

/-- The while-loop of copy_folder over the source's listing pages. -/
def copyPagesLoop (env : Env) (failAt : Option Nat) (j : Nat)
    (remaining : List (List Node)) (newFolderId : String) (n : Nat)
    (evs : List Event) : Option String × Nat × List Event :=
  if failAt = some j then (none, n, evs)
  else
    match remaining with
    | [] => (some newFolderId, n, evs)
    | p :: rest =>
      let st := copyItems env p newFolderId n evs
      match rest with
      | [] => (some newFolderId, st.1, st.2)
      | q :: rest2 => copyPagesLoop env failAt (j + 1) (q :: rest2) newFolderId st.1 st.2

/-- The for-loop of copy_folder over one page: recursively copy subfolders and
copy files, discarding each child's result. -/
def copyItems (env : Env) (items : List Node) (destId : String) (n : Nat)
    (evs : List Event) : Nat × List Event :=
  match items with
  | [] => (n, evs)
  | .container i nm fa pgs :: rest =>
    let st := copy_folder env (.container i nm fa pgs) destId (some nm) n
    copyItems env rest destId st.2.1 (evs ++ st.2.2)
  | .leaf i nm mime chunks :: rest =>
    let st := copy_file env i mime chunks destId nm n
    copyItems env rest destId st.2.1 (evs ++ st.2.2)

end

/-! Tree statistics used to characterise the Counter, and the predicate that
no listing in a subtree hits an injected failure. -/

mutual

/-- File contribution of one listed entry to a fully successful recursive
count: a visible file counts 1, a folder contributes the files of its subtree. -/
def itemFiles : Node → Nat
  | .leaf i nm m ch => if countKeeps (.leaf i nm m ch) then 1 else 0
  | .container _ _ _ pages => pagesFiles pages

def pagesFiles : List (List Node) → Nat
  | [] => 0
  | p :: rest => pageFiles p + pagesFiles rest

def pageFiles : List Node → Nat
  | [] => 0
  | x :: rest => itemFiles x + pageFiles rest

end

mutual

/-- Folder contribution of one listed entry: a folder counts itself plus every
folder strictly below it, a file counts 0. -/
def itemFolders : Node → Nat
  | .leaf _ _ _ _ => 0
  | .container _ _ _ pgs => 1 + pagesFolders pgs

def pagesFolders : List (List Node) → Nat
  | [] => 0
  | p :: rest => pageFolders p + pagesFolders rest

def pageFolders : List Node → Nat
  | [] => 0
  | x :: rest => itemFolders x + pageFolders rest

end

/-- All folders strictly below a node. -/
def belowFolders : Node → Nat
  | .leaf _ _ _ _ => 0
  | .container _ _ _ pages => pagesFolders pages

/-- All files visible to the Counter in the subtree below a node. -/
def belowFiles : Node → Nat
  | .leaf _ _ _ _ => 0
  | .container _ _ _ pages => pagesFiles pages

mutual

/-- No listing request anywhere in the subtree hits an injected failure. -/
def nodeNoFail : Node → Bool
  | .leaf _ _ _ _ => true
  | .container _ _ failAt pages => !(failHit failAt pages.length) && pagesNoFail pages

def pagesNoFail : List (List Node) → Bool
  | [] => true
  | p :: rest => pageNoFail p && pagesNoFail rest

def pageNoFail : List Node → Bool
  | [] => true
  | x :: rest => nodeNoFail x && pageNoFail rest

end

/-- The net effect of one loop iteration of count_items on the accumulators. -/
def countStep (r : Bool) (x : Node) (fc foc nfc : Nat) : Nat × Nat × Nat :=
  match x with
  | .leaf i nm m ch =>
    if countKeeps (.leaf i nm m ch) then (fc + 1, foc, nfc) else (fc, foc, nfc)
  | .container i nm fa pgs =>
    if r then
      match count_items true (.container i nm fa pgs) with
      | (some sf, some sfo, some sn) => (fc + sf, foc + 1 + sfo, nfc + (sn + 1))
      | _ => (fc, foc + 1, nfc)
    else (fc, foc + 1, nfc)

/-- An entry that the listing reports as a plain file. -/
def isLeafB : Node → Bool
  | .leaf _ _ _ _ => true
  | .container _ _ _ _ => false

/-- Files visible to the Counter among the listed entries themselves. -/
def flatFiles : List Node → Nat
  | [] => 0
  | .leaf i nm m ch :: rest => (if countKeeps (.leaf i nm m ch) then 1 else 0) + flatFiles rest
  | .container _ _ _ _ :: rest => flatFiles rest

/-- Folders among the listed entries themselves (immediate subfolders). -/
def flatFolders : List Node → Nat
  | [] => 0
  | .leaf _ _ _ _ :: rest => flatFolders rest
  | .container _ _ _ _ :: rest => 1 + flatFolders rest

/-! Concrete fixtures used by counterexamples and witnesses. -/

def exD : Node := .container "d" "D" none []

def exC : Node := .container "c" "C" none [[exD]]

def exE : Node := .container "e" "E" none []

def exD2 : Node := .container "d" "D" none [[exE]]

def exC2 : Node := .container "c" "C" none [[exD2]]

def exDfail : Node := .container "d" "D" (some 0) []

def exCfail : Node := .container "c" "C" none [[exDfail]]

def exCbad : Node := .container "c" "C" (some 0) []

def exLeafTxt : Node := .leaf "f" "F" "text/plain" []

def exDoc : Node := .leaf "f1" "Doc" "application/vnd.google-apps.document" []

def exSrc : Node := .container "s" "S" none [[exDoc]]

def exDoc2 : Node := .leaf "f2" "F2" "application/vnd.google-apps.document" []

def exSrcFail : Node := .container "s" "S" (some 1) [[exDoc], [exDoc2]]

def exFlat : Node := .container "c" "C" none [[exLeafTxt, .leaf "g" "G" "image/png" [[1]]]]

def exPaged : Node := .container "p" "P" none [[exLeafTxt], [exD], [.leaf "h" "H" "image/png" []]]

/-- A transport environment in which no copy-side service call fails. -/
def envOk : Env :=
  ⟨fun _ _ => false, fun _ => false, fun _ => false, fun _ => false, fun _ => false⟩

/-- A transport environment in which every folder-creation call fails. -/
def envCreateFail : Env :=
  ⟨fun _ _ => true, fun _ => false, fun _ => false, fun _ => false, fun _ => false⟩

/-! General lemmas about the Counter: one-step behaviour of the item loop,
concatenation over pages, and the success / failure behaviour of the cursor
loop. -/

theorem countKeeps_container (i nm : String) (fa : Option Nat) (pgs : List (List Node)) :
    countKeeps (Node.container i nm fa pgs) = true := by
  simp [countKeeps, nodeMime]

theorem countFold_nil (r : Bool) (fc foc nfc : Nat) :
    countFold r [] fc foc nfc = (fc, foc, nfc) := by
  simp [countFold]

theorem countFold_cons_leaf (r : Bool) (i nm m : String) (ch : List (List Nat))
    (rest : List Node) (fc foc nfc : Nat) :
    countFold r (Node.leaf i nm m ch :: rest) fc foc nfc =
      if countKeeps (Node.leaf i nm m ch) then countFold r rest (fc + 1) foc nfc
      else countFold r rest fc foc nfc := by
  simp only [countFold]

theorem countFold_cons_container_ok (i nm : String) (fa : Option Nat)
    (pgs : List (List Node)) (rest : List Node) (fc foc nfc sf sfo sn : Nat)
    (h : count_items true (Node.container i nm fa pgs) = (some sf, some sfo, some sn)) :
    countFold true (Node.container i nm fa pgs :: rest) fc foc nfc =
      countFold true rest (fc + sf) (foc + 1 + sfo) (nfc + (sn + 1)) := by
  simp only [countFold, if_true, h]

theorem countFold_cons_container_failed (i nm : String) (fa : Option Nat)
    (pgs : List (List Node)) (rest : List Node) (fc foc nfc : Nat)
    (h : count_items true (Node.container i nm fa pgs) = (none, none, none)) :
    countFold true (Node.container i nm fa pgs :: rest) fc foc nfc =
      countFold true rest fc (foc + 1) nfc := by
  simp only [countFold, if_true, h]

theorem countFold_cons_container_nonrec (i nm : String) (fa : Option Nat)
    (pgs : List (List Node)) (rest : List Node) (fc foc nfc : Nat) :
    countFold false (Node.container i nm fa pgs :: rest) fc foc nfc =
      countFold false rest fc (foc + 1) nfc := by
  simp [countFold]

theorem countFold_cons (r : Bool) (x : Node) (rest : List Node) (fc foc nfc : Nat) :
    countFold r (x :: rest) fc foc nfc =
      countFold r rest (countStep r x fc foc nfc).1 (countStep r x fc foc nfc).2.1
        (countStep r x fc foc nfc).2.2 := by
  cases x with
  | leaf a b c d =>
    simp only [countFold, countStep]
    split <;> rfl
  | container a b c d =>
    simp only [countFold, countStep]
    by_cases hr : r = true
    · simp only [hr, if_true]
      rcases hs : count_items true (Node.container a b c d) with ⟨sf, sfo, sn⟩
      rcases sf with _ | sf <;> rcases sfo with _ | sfo <;> rcases sn with _ | sn <;> simp
    · simp [hr]

theorem countFold_append (r : Bool) (l1 l2 : List Node) :
    ∀ fc foc nfc, countFold r (l1 ++ l2) fc foc nfc =
      countFold r l2 (countFold r l1 fc foc nfc).1 (countFold r l1 fc foc nfc).2.1
        (countFold r l1 fc foc nfc).2.2 := by
  induction l1 with
  | nil => intro fc foc nfc; simp [countFold]
  | cons x rest ih =>
    intro fc foc nfc
    rw [List.cons_append, countFold_cons, ih, countFold_cons]

theorem countPagesLoop_noHit (r : Bool) (failAt : Option Nat) :
    ∀ (remaining : List (List Node)) (j fc foc nfc : Nat),
      (∀ m, m < max 1 remaining.length → failAt ≠ some (j + m)) →
      countPagesLoop r failAt j remaining fc foc nfc =
        (some (countFold r remaining.flatten fc foc nfc).1,
         some (countFold r remaining.flatten fc foc nfc).2.1,
         some (countFold r remaining.flatten fc foc nfc).2.2) := by
  intro remaining
  induction remaining with
  | nil =>
    intro j fc foc nfc h
    have h0 : failAt ≠ some j := by
      have := h 0 (by omega)
      simpa using this
    unfold countPagesLoop
    rw [if_neg h0]
    simp [countFold]
  | cons p rest ih =>
    intro j fc foc nfc h
    have h0 : failAt ≠ some j := by
      have := h 0 (by omega)
      simpa using this
    cases rest with
    | nil =>
      unfold countPagesLoop
      rw [if_neg h0]
      simp
    | cons q rest2 =>
      have step : countPagesLoop r failAt j (p :: q :: rest2) fc foc nfc =
          countPagesLoop r failAt (j + 1) (q :: rest2)
            (countFold r p fc foc nfc).1 (countFold r p fc foc nfc).2.1
            (countFold r p fc foc nfc).2.2 := by
        conv_lhs => unfold countPagesLoop
        rw [if_neg h0]
      rw [step, ih]
      · rw [show (p :: q :: rest2).flatten = p ++ (q :: rest2).flatten from rfl,
            countFold_append]
      · intro m hm hcontra
        exact h (m + 1) (by simp at hm ⊢; omega) (by rw [hcontra]; congr 1; omega)

theorem countPagesLoop_hit (r : Bool) (i0 : Nat) :
    ∀ (remaining : List (List Node)) (j fc foc nfc : Nat),
      (∃ m, m < max 1 remaining.length ∧ i0 = j + m) →
      countPagesLoop r (some i0) j remaining fc foc nfc = (none, none, none) := by
  intro remaining
  induction remaining with
  | nil =>
    intro j fc foc nfc h
    rcases h with ⟨m, hm, he⟩
    simp at hm
    have : i0 = j := by omega
    unfold countPagesLoop
    rw [if_pos (by rw [this])]
  | cons p rest ih =>
    intro j fc foc nfc h
    rcases h with ⟨m, hm, he⟩
    by_cases h0 : i0 = j
    · unfold countPagesLoop
      rw [if_pos (by rw [h0])]
    · have hm1 : 1 ≤ m := by
        rcases Nat.eq_zero_or_pos m with h1 | h1
        · exact absurd (by omega : i0 = j) h0
        · omega
      cases rest with
      | nil =>
        exfalso
        simp at hm
        omega
      | cons q rest2 =>
        have step : countPagesLoop r (some i0) j (p :: q :: rest2) fc foc nfc =
            countPagesLoop r (some i0) (j + 1) (q :: rest2)
              (countFold r p fc foc nfc).1 (countFold r p fc foc nfc).2.1
              (countFold r p fc foc nfc).2.2 := by
          conv_lhs => unfold countPagesLoop
          rw [if_neg (by simp; omega)]
        rw [step, ih]
        refine ⟨m - 1, ?_, by omega⟩
        simp at hm ⊢
        omega

theorem countPagesLoop_allOrNone (r : Bool) (failAt : Option Nat) :
    ∀ (remaining : List (List Node)) (j fc foc nfc : Nat),
      countPagesLoop r failAt j remaining fc foc nfc = (none, none, none) ∨
      ∃ a b c, countPagesLoop r failAt j remaining fc foc nfc = (some a, some b, some c) := by
  intro remaining
  induction remaining with
  | nil =>
    intro j fc foc nfc
    unfold countPagesLoop
    by_cases h0 : failAt = some j
    · rw [if_pos h0]; left; rfl
    · rw [if_neg h0]; right; exact ⟨_, _, _, rfl⟩
  | cons p rest ih =>
    intro j fc foc nfc
    by_cases h0 : failAt = some j
    · left; unfold countPagesLoop; rw [if_pos h0]
    · cases rest with
      | nil =>
        right
        unfold countPagesLoop
        rw [if_neg h0]
        exact ⟨_, _, _, rfl⟩
      | cons q rest2 =>
        have step : countPagesLoop r failAt j (p :: q :: rest2) fc foc nfc =
            countPagesLoop r failAt (j + 1) (q :: rest2)
              (countFold r p fc foc nfc).1 (countFold r p fc foc nfc).2.1
              (countFold r p fc foc nfc).2.2 := by
          conv_lhs => unfold countPagesLoop
          rw [if_neg h0]
        rw [step]
        exact ih (j + 1) _ _ _

/-! Bridges between the per-page tree statistics and flattened page lists. -/

theorem pageFiles_append (l1 l2 : List Node) :
    pageFiles (l1 ++ l2) = pageFiles l1 + pageFiles l2 := by
  induction l1 with
  | nil => simp [pageFiles]
  | cons x rest ih => simp [pageFiles, ih]; omega

theorem pageFolders_append (l1 l2 : List Node) :
    pageFolders (l1 ++ l2) = pageFolders l1 + pageFolders l2 := by
  induction l1 with
  | nil => simp [pageFolders]
  | cons x rest ih => simp [pageFolders, ih]; omega

theorem pagesFiles_flatten (pages : List (List Node)) :
    pageFiles pages.flatten = pagesFiles pages := by
  induction pages with
  | nil => simp [pageFiles, pagesFiles]
  | cons p rest ih => simp [pagesFiles, pageFiles_append, ih]

theorem pagesFolders_flatten (pages : List (List Node)) :
    pageFolders pages.flatten = pagesFolders pages := by
  induction pages with
  | nil => simp [pageFolders, pagesFolders]
  | cons p rest ih => simp [pagesFolders, pageFolders_append, ih]

theorem pageNoFail_append (l1 l2 : List Node) :
    pageNoFail (l1 ++ l2) = (pageNoFail l1 && pageNoFail l2) := by
  induction l1 with
  | nil => simp [pageNoFail]
  | cons x rest ih => simp [pageNoFail, ih, Bool.and_assoc]

theorem pagesNoFail_flatten (pages : List (List Node)) (h : pagesNoFail pages = true) :
    pageNoFail pages.flatten = true := by
  induction pages with
  | nil => simp [pageNoFail]
  | cons p rest ih =>
    simp [pagesNoFail, Bool.and_eq_true] at h
    simp [pageNoFail_append, Bool.and_eq_true, h.1, ih h.2]

theorem pageNoFail_mem (items : List Node) (x : Node) (hx : x ∈ items)
    (h : pageNoFail items = true) : nodeNoFail x = true := by
  induction items with
  | nil => cases hx
  | cons y rest ih =>
    simp [pageNoFail, Bool.and_eq_true] at h
    rcases List.mem_cons.mp hx with h1 | h1
    · rw [h1]; exact h.1
    · exact ih h1 h.2

theorem sizeOf_mem_pages (x : Node) (pages : List (List Node))
    (hx : x ∈ pages.flatten) (i nm : String) (failAt : Option Nat) :
    sizeOf x < sizeOf (Node.container i nm failAt pages) := by
  rcases List.mem_flatten.mp hx with ⟨p, hp, hxp⟩
  have h1 := List.sizeOf_lt_of_mem hxp
  have h2 := List.sizeOf_lt_of_mem hp
  have h3 : sizeOf (Node.container i nm failAt pages) =
      1 + sizeOf i + sizeOf nm + sizeOf failAt + sizeOf pages := by
    simp
  omega

/-! The fully successful recursive count equals the tree statistics; in
particular nested_folder_count and folder_count coincide there. -/

theorem countFold_eval (items : List Node)
    (ihsub : ∀ x ∈ items, nodeNoFail x = true →
      count_items true x = (some (belowFiles x), some (belowFolders x), some (belowFolders x)))
    (hnf : pageNoFail items = true) :
    ∀ fc foc nfc, countFold true items fc foc nfc =
      (fc + pageFiles items, foc + pageFolders items, nfc + pageFolders items) := by
  induction items with
  | nil =>
    intro fc foc nfc
    simp [countFold, pageFiles, pageFolders]
  | cons x rest ih =>
    intro fc foc nfc
    simp only [pageNoFail, Bool.and_eq_true] at hnf
    have ihr := ih (fun y hy => ihsub y (List.mem_cons_of_mem x hy)) hnf.2
    cases x with
    | leaf a b c d =>
      rw [countFold_cons_leaf]
      by_cases hk : countKeeps (Node.leaf a b c d) = true
      · rw [if_pos hk, ihr]
        simp only [pageFiles, pageFolders, itemFiles, itemFolders, hk, if_true,
          Prod.mk.injEq]
        refine ⟨by omega, by omega, by omega⟩
      · rw [if_neg hk, ihr]
        have hk2 : countKeeps (Node.leaf a b c d) = false := by
          revert hk; cases countKeeps (Node.leaf a b c d) <;> simp
        simp only [pageFiles, pageFolders, itemFiles, itemFolders, hk2,
          Bool.false_eq_true, if_false, Prod.mk.injEq]
        refine ⟨by omega, by omega, by omega⟩
    | container a b c d =>
      have hsub := ihsub (Node.container a b c d) (List.mem_cons_self _ _) hnf.1
      rw [countFold_cons_container_ok a b c d rest fc foc nfc _ _ _ hsub, ihr]
      simp only [pageFiles, pageFolders, itemFiles, itemFolders, belowFiles,
        belowFolders, Prod.mk.injEq]
      refine ⟨by omega, by omega, by omega⟩

theorem failHit_false_noHit (failAt : Option Nat) (k : Nat)
    (h : failHit failAt k = false) :
    ∀ m, m < max 1 k → failAt ≠ some (0 + m) := by
  intro m hm
  cases failAt with
  | none => simp
  | some i0 =>
    simp [failHit] at h
    intro hc
    simp at hc
    omega

theorem count_items_rec_ok_aux :
    ∀ (k : Nat) (x : Node), sizeOf x ≤ k → nodeNoFail x = true →
      count_items true x =
        (some (belowFiles x), some (belowFolders x), some (belowFolders x)) := by
  intro k
  induction k with
  | zero =>
    intro x hx
    exfalso
    cases x <;> simp at hx
  | succ k ihk =>
    intro x hsz hnf
    cases x with
    | leaf a b c d => simp [count_items, belowFiles, belowFolders]
    | container a b c d =>
      have hnf2 : failHit c d.length = false ∧ pagesNoFail d = true := by
        have := hnf
        simp [nodeNoFail, Bool.and_eq_true] at this
        exact this
      have hflat : pageNoFail d.flatten = true := pagesNoFail_flatten d hnf2.2
      have hloop := countPagesLoop_noHit true c d 0 0 0 0
        (failHit_false_noHit c d.length hnf2.1)
      have heval := countFold_eval d.flatten
        (fun y hy hyn => ihk y (by
          have := sizeOf_mem_pages y d hy a b c
          omega) hyn)
        hflat 0 0 0
      rw [show count_items true (Node.container a b c d) =
            countPagesLoop true c 0 d 0 0 0 from by simp [count_items]]
      rw [hloop, heval]
      simp [belowFiles, belowFolders, pagesFiles_flatten, pagesFolders_flatten]

theorem count_items_rec_ok (x : Node) (h : nodeNoFail x = true) :
    count_items true x =
      (some (belowFiles x), some (belowFolders x), some (belowFolders x)) :=
  count_items_rec_ok_aux (sizeOf x) x (Nat.le_refl _) h

/-! Non-recursive counting and the folders-only lister. -/

theorem countFold_false_eval (items : List Node) :
    ∀ fc foc nfc, countFold false items fc foc nfc =
      (fc + flatFiles items, foc + flatFolders items, nfc) := by
  induction items with
  | nil => intro fc foc nfc; simp [countFold, flatFiles, flatFolders]
  | cons x rest ih =>
    intro fc foc nfc
    cases x with
    | leaf a b c d =>
      rw [countFold_cons_leaf]
      by_cases hk : countKeeps (Node.leaf a b c d) = true
      · rw [if_pos hk, ih]
        simp [flatFiles, flatFolders, hk, Prod.mk.injEq] <;> omega
      · have hk2 : countKeeps (Node.leaf a b c d) = false := by
          revert hk; cases countKeeps (Node.leaf a b c d) <;> simp
        rw [if_neg hk, ih]
        simp [flatFiles, flatFolders, hk2, Prod.mk.injEq] <;> omega
    | container a b c d =>
      rw [countFold_cons_container_nonrec, ih]
      simp [flatFiles, flatFolders, Prod.mk.injEq] <;> omega

theorem countFold_all_leaves (items : List Node) (h : ∀ x ∈ items, isLeafB x = true) :
    ∀ fc foc nfc, countFold true items fc foc nfc = countFold false items fc foc nfc := by
  induction items with
  | nil => intro fc foc nfc; simp [countFold]
  | cons x rest ih =>
    intro fc foc nfc
    cases x with
    | leaf a b c d =>
      rw [countFold_cons_leaf, countFold_cons_leaf]
      have ihr := ih (fun y hy => h y (List.mem_cons_of_mem _ hy))
      by_cases hk : countKeeps (Node.leaf a b c d) = true
      · rw [if_pos hk, if_pos hk, ihr]
      · rw [if_neg hk, if_neg hk, ihr]
    | container a b c d =>
      exfalso
      have := h (Node.container a b c d) (List.mem_cons_self _ _)
      simp [isLeafB] at this

theorem topPagesLoop_noHit (failAt : Option Nat) :
    ∀ (remaining : List (List Node)) (j : Nat) (acc : List (String × String)),
      (∀ m, m < max 1 remaining.length → failAt ≠ some (j + m)) →
      topPagesLoop failAt j remaining acc =
        some (acc ++ remaining.flatten.filterMap folderEntry) := by
  intro remaining
  induction remaining with
  | nil =>
    intro j acc h
    have h0 : failAt ≠ some j := by
      have := h 0 (by omega)
      simpa using this
    unfold topPagesLoop
    rw [if_neg h0]
    simp
  | cons p rest ih =>
    intro j acc h
    have h0 : failAt ≠ some j := by
      have := h 0 (by omega)
      simpa using this
    cases rest with
    | nil =>
      unfold topPagesLoop
      rw [if_neg h0]
      simp
    | cons q rest2 =>
      have step : topPagesLoop failAt j (p :: q :: rest2) acc =
          topPagesLoop failAt (j + 1) (q :: rest2) (acc ++ p.filterMap folderEntry) := by
        conv_lhs => unfold topPagesLoop
        rw [if_neg h0]
      rw [step, ih]
      · simp
      · intro m hm hcontra
        exact h (m + 1) (by simp at hm ⊢; omega) (by rw [hcontra]; congr 1; omega)

theorem topPagesLoop_hit (i0 : Nat) :
    ∀ (remaining : List (List Node)) (j : Nat) (acc : List (String × String)),
      (∃ m, m < max 1 remaining.length ∧ i0 = j + m) →
      topPagesLoop (some i0) j remaining acc = none := by
  intro remaining
  induction remaining with
  | nil =>
    intro j acc h
    rcases h with ⟨m, hm, he⟩
    simp at hm
    have : i0 = j := by omega
    unfold topPagesLoop
    rw [if_pos (by rw [this])]
  | cons p rest ih =>
    intro j acc h
    rcases h with ⟨m, hm, he⟩
    by_cases h0 : i0 = j
    · unfold topPagesLoop
      rw [if_pos (by rw [h0])]
    · have hm1 : 1 ≤ m := by
        rcases Nat.eq_zero_or_pos m with h1 | h1
        · exact absurd (by omega : i0 = j) h0
        · omega
      cases rest with
      | nil =>
        exfalso
        simp at hm
        omega
      | cons q rest2 =>
        have step : topPagesLoop (some i0) j (p :: q :: rest2) acc =
            topPagesLoop (some i0) (j + 1) (q :: rest2) (acc ++ p.filterMap folderEntry) := by
          conv_lhs => unfold topPagesLoop
          rw [if_neg (by simp; omega)]
        rw [step, ih]
        refine ⟨m - 1, ?_, by omega⟩
        simp at hm ⊢
        omega

theorem failHit_true_elim (failAt : Option Nat) (k : Nat)
    (h : failHit failAt k = true) :
    ∃ i0, failAt = some i0 ∧ ∃ m, m < max 1 k ∧ i0 = 0 + m := by
  cases failAt with
  | none => simp [failHit] at h
  | some i0 =>
    simp [failHit] at h
    exact ⟨i0, rfl, i0, by omega, by omega⟩

/-! General lemmas about the Tree Copier: event-trace monotonicity, return
value of the page loop, and the two leaf-copy strategies. -/

theorem copyItems_events_mono (env : Env) (destId : String) :
    ∀ (items : List Node) (n : Nat) (evs : List Event),
      ∃ extra, (copyItems env items destId n evs).2 = evs ++ extra := by
  intro items
  induction items with
  | nil => intro n evs; exact ⟨[], by simp [copyItems]⟩
  | cons x rest ih =>
    intro n evs
    cases x with
    | leaf a b c d =>
      rcases ih (copy_file env a c d destId b n).2.1
          (evs ++ (copy_file env a c d destId b n).2.2) with ⟨extra, hex⟩
      refine ⟨(copy_file env a c d destId b n).2.2 ++ extra, ?_⟩
      rw [show copyItems env (Node.leaf a b c d :: rest) destId n evs =
            copyItems env rest destId (copy_file env a c d destId b n).2.1
              (evs ++ (copy_file env a c d destId b n).2.2) from by
          simp only [copyItems]]
      rw [hex, List.append_assoc]
    | container a b c d =>
      rcases ih (copy_folder env (Node.container a b c d) destId (some b) n).2.1
          (evs ++ (copy_folder env (Node.container a b c d) destId (some b) n).2.2) with
        ⟨extra, hex⟩
      refine ⟨(copy_folder env (Node.container a b c d) destId (some b) n).2.2 ++ extra, ?_⟩
      rw [show copyItems env (Node.container a b c d :: rest) destId n evs =
            copyItems env rest destId
              (copy_folder env (Node.container a b c d) destId (some b) n).2.1
              (evs ++ (copy_folder env (Node.container a b c d) destId (some b) n).2.2) from by
          simp only [copyItems]]
      rw [hex, List.append_assoc]

theorem copyPagesLoop_events_mono (env : Env) (failAt : Option Nat) (dest : String) :
    ∀ (remaining : List (List Node)) (j n : Nat) (evs : List Event),
      ∃ extra, (copyPagesLoop env failAt j remaining dest n evs).2.2 = evs ++ extra := by
  intro remaining
  induction remaining with
  | nil =>
    intro j n evs
    by_cases h0 : failAt = some j
    · exact ⟨[], by unfold copyPagesLoop; rw [if_pos h0]; simp⟩
    · exact ⟨[], by unfold copyPagesLoop; rw [if_neg h0]; simp⟩
  | cons p rest ih =>
    intro j n evs
    by_cases h0 : failAt = some j
    · exact ⟨[], by unfold copyPagesLoop; rw [if_pos h0]; simp⟩
    · cases rest with
      | nil =>
        rcases copyItems_events_mono env dest p n evs with ⟨extra, hex⟩
        refine ⟨extra, ?_⟩
        unfold copyPagesLoop
        rw [if_neg h0]
        simpa using hex
      | cons q rest2 =>
        rcases copyItems_events_mono env dest p n evs with ⟨extra1, hex1⟩
        rcases ih (j + 1) (copyItems env p dest n evs).1 (copyItems env p dest n evs).2 with
          ⟨extra2, hex2⟩
        refine ⟨extra1 ++ extra2, ?_⟩
        rw [show copyPagesLoop env failAt j (p :: q :: rest2) dest n evs =
              copyPagesLoop env failAt (j + 1) (q :: rest2) dest
                (copyItems env p dest n evs).1 (copyItems env p dest n evs).2 from by
            conv_lhs => unfold copyPagesLoop
            rw [if_neg h0]]
        rw [hex2, hex1, List.append_assoc]

theorem copyPagesLoop_ok (env : Env) (failAt : Option Nat) (dest : String) :
    ∀ (remaining : List (List Node)) (j n : Nat) (evs : List Event),
      (∀ m, m < max 1 remaining.length → failAt ≠ some (j + m)) →
      (copyPagesLoop env failAt j remaining dest n evs).1 = some dest := by
  intro remaining
  induction remaining with
  | nil =>
    intro j n evs h
    have h0 : failAt ≠ some j := by
      have := h 0 (by omega)
      simpa using this
    unfold copyPagesLoop
    rw [if_neg h0]
  | cons p rest ih =>
    intro j n evs h
    have h0 : failAt ≠ some j := by
      have := h 0 (by omega)
      simpa using this
    cases rest with
    | nil =>
      unfold copyPagesLoop
      rw [if_neg h0]
    | cons q rest2 =>
      rw [show copyPagesLoop env failAt j (p :: q :: rest2) dest n evs =
            copyPagesLoop env failAt (j + 1) (q :: rest2) dest
              (copyItems env p dest n evs).1 (copyItems env p dest n evs).2 from by
          conv_lhs => unfold copyPagesLoop
          rw [if_neg h0]]
      apply ih
      intro m hm hcontra
      exact h (m + 1) (by simp at hm ⊢; omega) (by rw [hcontra]; congr 1; omega)

theorem copy_file_workspace (env : Env) (fileId mime : String)
    (chunks : List (List Nat)) (destId nm : String) (n : Nat)
    (hget : env.getFails fileId = false)
    (hmime : strContains mime "application/vnd.google-apps." = true)
    (hcopy : env.serverCopyFails fileId = false) :
    copy_file env fileId mime chunks destId nm n =
      (some (freshId n), n + 1, [Event.serverCopied fileId nm destId (freshId n)]) := by
  simp [copy_file, hget, hmime, hcopy]

theorem copyItems_leaf_event (env : Env) (destId : String)
    (li ln lm : String) (lc : List (List Nat))
    (hmime : strContains lm "application/vnd.google-apps." = true)
    (hget : env.getFails li = false) (hcopy : env.serverCopyFails li = false) :
    ∀ (items : List Node) (n : Nat) (evs : List Event),
      Node.leaf li ln lm lc ∈ items →
      ∃ newId, Event.serverCopied li ln destId newId ∈ (copyItems env items destId n evs).2 := by
  intro items
  induction items with
  | nil => intro n evs hx; cases hx
  | cons x rest ih =>
    intro n evs hx
    rcases List.mem_cons.mp hx with h1 | h1
    · subst h1
      rw [show copyItems env (Node.leaf li ln lm lc :: rest) destId n evs =
            copyItems env rest destId (copy_file env li lm lc destId ln n).2.1
              (evs ++ (copy_file env li lm lc destId ln n).2.2) from by
          simp only [copyItems]]
      rw [copy_file_workspace env li lm lc destId ln n hget hmime hcopy]
      rcases copyItems_events_mono env destId rest (n + 1)
          (evs ++ [Event.serverCopied li ln destId (freshId n)]) with ⟨extra, hex⟩
      refine ⟨freshId n, ?_⟩
      rw [hex]
      simp
    · cases x with
      | leaf a b c d =>
        rw [show copyItems env (Node.leaf a b c d :: rest) destId n evs =
              copyItems env rest destId (copy_file env a c d destId b n).2.1
                (evs ++ (copy_file env a c d destId b n).2.2) from by
            simp only [copyItems]]
        exact ih _ _ h1
      | container a b c d =>
        rw [show copyItems env (Node.container a b c d :: rest) destId n evs =
              copyItems env rest destId
                (copy_folder env (Node.container a b c d) destId (some b) n).2.1
                (evs ++ (copy_folder env (Node.container a b c d) destId (some b) n).2.2) from by
            simp only [copyItems]]
        exact ih _ _ h1

theorem copyPagesLoop_leaf_event (env : Env) (failAt : Option Nat) (dest : String)
    (li ln lm : String) (lc : List (List Nat))
    (hmime : strContains lm "application/vnd.google-apps." = true)
    (hget : env.getFails li = false) (hcopy : env.serverCopyFails li = false) :
    ∀ (remaining : List (List Node)) (j n : Nat) (evs : List Event),
      (∀ m, m < max 1 remaining.length → failAt ≠ some (j + m)) →
      Node.leaf li ln lm lc ∈ remaining.flatten →
      ∃ newId, Event.serverCopied li ln dest newId ∈
        (copyPagesLoop env failAt j remaining dest n evs).2.2 := by
  intro remaining
  induction remaining with
  | nil => intro j n evs hfail hx; simp at hx
  | cons p rest ih =>
    intro j n evs hfail hx
    have h0 : failAt ≠ some j := by
      have := hfail 0 (by omega)
      simpa using this
    rw [List.flatten_cons] at hx
    cases rest with
    | nil =>
      simp at hx
      rw [show copyPagesLoop env failAt j [p] dest n evs =
            (some dest, (copyItems env p dest n evs).1, (copyItems env p dest n evs).2) from by
          unfold copyPagesLoop
          rw [if_neg h0]]
      exact copyItems_leaf_event env dest li ln lm lc hmime hget hcopy p n evs hx
    | cons q rest2 =>
      rw [show copyPagesLoop env failAt j (p :: q :: rest2) dest n evs =
            copyPagesLoop env failAt (j + 1) (q :: rest2) dest
              (copyItems env p dest n evs).1 (copyItems env p dest n evs).2 from by
          conv_lhs => unfold copyPagesLoop
          rw [if_neg h0]]
      rcases List.mem_append.mp hx with h1 | h1
      · rcases copyItems_leaf_event env dest li ln lm lc hmime hget hcopy p n evs h1 with
          ⟨newId, hmem⟩
        rcases copyPagesLoop_events_mono env failAt dest (q :: rest2) (j + 1)
            (copyItems env p dest n evs).1 (copyItems env p dest n evs).2 with ⟨extra, hex⟩
        refine ⟨newId, ?_⟩
        rw [hex]
        exact List.mem_append_left _ hmem
      · apply ih (j + 1) _ _ ?_ h1
        intro m hm hcontra
        exact hfail (m + 1) (by simp at hm ⊢; omega) (by rw [hcontra]; congr 1; omega)

theorem nameGiven_some (s : String) (h : s ≠ "") : nameGiven (some s) = true := by
  simp [nameGiven, h]

theorem copy_folder_named (env : Env) (i nm : String) (fa : Option Nat)
    (pgs : List (List Node)) (destId s : String) (n : Nat) (hs : s ≠ "")
    (hc : env.createFails destId s = false) :
    copy_folder env (Node.container i nm fa pgs) destId (some s) n =
      copyPagesLoop env fa 0 pgs (freshId n) (n + 1)
        [Event.createdFolder s destId (freshId n)] := by
  simp only [copy_folder, nameGiven_some s hs, if_true, Option.getD_some, hc,
    Bool.false_eq_true, if_false]

theorem copy_folder_create_failed (env : Env) (i nm : String) (fa : Option Nat)
    (pgs : List (List Node)) (destId s : String) (n : Nat) (hs : s ≠ "")
    (hc : env.createFails destId s = true) :
    copy_folder env (Node.container i nm fa pgs) destId (some s) n = (none, n, []) := by
  simp only [copy_folder, nameGiven_some s hs, if_true, Option.getD_some, hc]

theorem copy_folder_unnamed (env : Env) (i nm : String) (fa : Option Nat)
    (pgs : List (List Node)) (destId : String) (n : Nat)
    (folderName : Option String) (hn : nameGiven folderName = false) :
    copy_folder env (Node.container i nm fa pgs) destId folderName n =
      copyPagesLoop env fa 0 pgs destId n [] := by
  simp only [copy_folder, hn, Bool.false_eq_true, if_false]

theorem downloadAll_data : ∀ (chunks : List (List Nat)) (b : Buffer),
    (downloadAll chunks b).data = b.data ++ chunks.flatten := by
  intro chunks
  induction chunks with
  | nil => intro b; simp [downloadAll]
  | cons c rest ih =>
    intro b
    rw [show downloadAll (c :: rest) b = downloadAll rest (writeChunk b c) from rfl, ih]
    simp [writeChunk]

theorem readOut_rewound (chunks : List (List Nat)) :
    readOut (seekZero (downloadAll chunks ⟨[], 0⟩)) = chunks.flatten := by
  simp [readOut, seekZero, downloadAll_data]

theorem copy_file_binary (env : Env) (fileId mime : String)
    (chunks : List (List Nat)) (destId nm : String) (n : Nat)
    (hget : env.getFails fileId = false)
    (hmime : strContains mime "application/vnd.google-apps." = false)
    (hdl : env.downloadFails fileId = false)
    (hul : env.uploadFails fileId = false) :
    copy_file env fileId mime chunks destId nm n =
      (some (freshId n), n + 1,
        [Event.downloaded fileId chunks,
         Event.uploaded nm destId mime chunks.flatten true (freshId n)]) := by
  simp [copy_file, hget, hmime, hdl, hul, readOut_rewound]

/-! Claim theorems. -/

/-- C1, counterexample: for the container exC with exactly one child container
exD (itself empty), count(C, recursive=true) returns nested_folder_count = 1,
not 0, and for exC2 (whose child exD2 contains exE) it returns
nested_folder_count = 2, not 1: the claimed exclusion of immediate child
containers from nested_folder_count is false. -/
theorem C1_counterexample :
    count_items true exC = (some 0, some 1, some 1) ∧
    (count_items true exC).2.2 ≠ some 0 ∧
    count_items true exC2 = (some 0, some 2, some 2) ∧
    (count_items true exC2).2.2 ≠ some 1 := by decide

/-- C1, amended: in a failure-free recursive count, nested_folder_count equals
folder_count, i.e. it counts every container strictly below the root, the
immediate child containers included: count(exC, true) = (0, 1, 1) and
count(exC2, true) = (0, 2, 2). -/
theorem C1_nested_counts_all_subfolders (x : Node) (h : nodeNoFail x = true) :
    (count_items true x).2.2 = some (belowFolders x) ∧
    (count_items true x).2.1 = some (belowFolders x) ∧
    count_items true exC = (some 0, some 1, some 1) ∧
    count_items true exC2 = (some 0, some 2, some 2) := by
  refine ⟨?_, ?_, by decide, by decide⟩ <;> rw [count_items_rec_ok x h]

theorem C1_witness :
    nodeNoFail exC = true ∧ (count_items true exC).2.2 = some (belowFolders exC) :=
  ⟨by decide, (C1_nested_counts_all_subfolders exC (by decide)).1⟩

/-- C2: in the recursive counting loop, a container child whose recursive
sub-count succeeds adds the sub-result's file and folder counts into the
running totals and sub_nested + 1 into nested_folder_count, and a leaf child
returned by the listing increments file_count by 1. -/
theorem C2_child_updates (x : Node) (rest : List Node) (fc foc nfc : Nat) :
    (∀ (i nm : String) (fa : Option Nat) (pgs : List (List Node)) (sf sfo sn : Nat),
      x = Node.container i nm fa pgs →
      count_items true x = (some sf, some sfo, some sn) →
      countFold true (x :: rest) fc foc nfc =
        countFold true rest (fc + sf) (foc + 1 + sfo) (nfc + (sn + 1))) ∧
    (∀ (li ln lm : String) (lc : List (List Nat)),
      x = Node.leaf li ln lm lc → countKeeps x = true →
      countFold true (x :: rest) fc foc nfc = countFold true rest (fc + 1) foc nfc) := by
  constructor
  · intro i nm fa pgs sf sfo sn hx hsub
    subst hx
    exact countFold_cons_container_ok i nm fa pgs rest fc foc nfc sf sfo sn hsub
  · intro li ln lm lc hx hk
    subst hx
    rw [countFold_cons_leaf, if_pos hk]

theorem C2_witness :
    countFold true [exD] 0 0 0 = countFold true [] (0 + 0) (0 + 1 + 0) (0 + (0 + 1)) ∧
    countFold true [exLeafTxt] 0 0 0 = countFold true [] (0 + 1) 0 0 :=
  ⟨(C2_child_updates exD [] 0 0 0).1 "d" "D" none [] 0 0 0 rfl (by decide),
   (C2_child_updates exLeafTxt [] 0 0 0).2 "f" "F" "text/plain" [] rfl (by decide)⟩


/-- C3, counterexample: exCfail has one child exDfail whose own listing fails;
count(exCfail, true) = (0, 1, 0), while exC, the same tree with the failed
child's subtree replaced by a successfully listed empty subtree, counts to
(0, 1, 1): dropping a failed child is not the same as counting it as empty,
because a successful empty child still adds 1 to nested_folder_count. -/
theorem C3_counterexample :
    count_items true exCfail = (some 0, some 1, some 0) ∧
    count_items true exC = (some 0, some 1, some 1) ∧
    count_items true exCfail ≠ count_items true exC := by decide

/-- C3, amended: when the top-level listing succeeds, the call returns a
non-Error triple whatever its children do, and a container child whose
recursive sub-count failed contributes exactly folder_count + 1 and nothing to
file_count or nested_folder_count. -/
theorem C3_failed_subtree_dropped (i nm : String) (failAt : Option Nat)
    (pages : List (List Node)) (h : failHit failAt pages.length = false) :
    (∃ a b c, count_items true (Node.container i nm failAt pages) =
      (some a, some b, some c)) ∧
    ∀ (x : Node) (rest : List Node) (fc foc nfc : Nat),
      count_items true x = (none, none, none) →
      (∃ xi xn xf xp, x = Node.container xi xn xf xp) →
      countFold true (x :: rest) fc foc nfc = countFold true rest fc (foc + 1) nfc := by
  constructor
  · rw [show count_items true (Node.container i nm failAt pages) =
        countPagesLoop true failAt 0 pages 0 0 0 from by simp [count_items]]
    rw [countPagesLoop_noHit true failAt pages 0 0 0 0
      (failHit_false_noHit failAt pages.length h)]
    exact ⟨_, _, _, rfl⟩
  · intro x rest fc foc nfc hfail hx
    rcases hx with ⟨xi, xn, xf, xp, hx⟩
    subst hx
    exact countFold_cons_container_failed xi xn xf xp rest fc foc nfc hfail

theorem C3_witness :
    failHit (none : Option Nat) ([[exDfail]] : List (List Node)).length = false ∧
    (∃ a b c, count_items true (Node.container "c" "C" none [[exDfail]]) =
      (some a, some b, some c)) :=
  ⟨by decide, (C3_failed_subtree_dropped "c" "C" none [[exDfail]] (by decide)).1⟩

/-- C4: a transport error on any page request made by count's own cursor loop
aborts the whole call with the all-None triple, a transport error in
listTopLevel's loop yields None, and every count result has its three
components all absent or all present. -/
theorem C4_paging_failure_fatal (i nm : String) (failAt : Option Nat)
    (pages : List (List Node)) (r : Bool) (h : failHit failAt pages.length = true) :
    count_items r (Node.container i nm failAt pages) = (none, none, none) ∧
    get_top_level_folders (Node.container i nm failAt pages) = none ∧
    ∀ (y : Node) (rb : Bool),
      count_items rb y = (none, none, none) ∨
      ∃ a b c, count_items rb y = (some a, some b, some c) := by
  rcases failHit_true_elim failAt pages.length h with ⟨i0, heq, m, hm, he⟩
  subst heq
  refine ⟨?_, ?_, ?_⟩
  · rw [show count_items r (Node.container i nm (some i0) pages) =
        countPagesLoop r (some i0) 0 pages 0 0 0 from by simp [count_items]]
    exact countPagesLoop_hit r i0 pages 0 0 0 0 ⟨m, hm, he⟩
  · rw [show get_top_level_folders (Node.container i nm (some i0) pages) =
        topPagesLoop (some i0) 0 pages [] from by simp [get_top_level_folders]]
    exact topPagesLoop_hit i0 pages 0 [] ⟨m, hm, he⟩
  · intro y rb
    cases y with
    | leaf a b c d => right; exact ⟨0, 0, 0, by simp [count_items]⟩
    | container a b c d =>
      rw [show count_items rb (Node.container a b c d) =
          countPagesLoop rb c 0 d 0 0 0 from by simp [count_items]]
      exact countPagesLoop_allOrNone rb c d 0 0 0 0

theorem C4_witness :
    failHit (some 0 : Option Nat) ([] : List (List Node)).length = true ∧
    count_items true exCbad = (none, none, none) ∧
    get_top_level_folders exCbad = none :=
  ⟨by decide, (C4_paging_failure_fatal "c" "C" (some 0) [] true (by decide)).1,
   (C4_paging_failure_fatal "c" "C" (some 0) [] true (by decide)).2.1⟩


/-- C5: when copyTree's own container-creation step succeeds and its own
listing loop never fails, the call returns the created container's identifier
no matter how many child copies fail, and every native-document leaf child
whose own copy calls succeed is server-copied into the created container —
children before and after a failing sibling included, since the environment is
free to fail any other child. -/
theorem C5_copy_best_effort (env : Env) (si sn : String) (failAt : Option Nat)
    (pages : List (List Node)) (destId s : String) (n : Nat)
    (hs : s ≠ "") (hc : env.createFails destId s = false)
    (hl : failHit failAt pages.length = false) :
    (copy_folder env (Node.container si sn failAt pages) destId (some s) n).1 =
      some (freshId n) ∧
    ∀ (li ln lm : String) (lc : List (List Nat)),
      Node.leaf li ln lm lc ∈ pages.flatten →
      strContains lm "application/vnd.google-apps." = true →
      env.getFails li = false → env.serverCopyFails li = false →
      ∃ newId, Event.serverCopied li ln (freshId n) newId ∈
        (copy_folder env (Node.container si sn failAt pages) destId (some s) n).2.2 := by
  rw [copy_folder_named env si sn failAt pages destId s n hs hc]
  have hno := failHit_false_noHit failAt pages.length hl
  constructor
  · exact copyPagesLoop_ok env failAt (freshId n) pages 0 (n + 1) _ hno
  · intro li ln lm lc hmem hm hg hsc
    exact copyPagesLoop_leaf_event env failAt (freshId n) li ln lm lc hm hg hsc
      pages 0 (n + 1) _ hno hmem

theorem C5_witness :
    ("copy" : String) ≠ "" ∧ envOk.createFails "dst" "copy" = false ∧
    failHit (none : Option Nat) ([[exDoc]] : List (List Node)).length = false ∧
    (copy_folder envOk exSrc "dst" (some "copy") 0).1 = some (freshId 0) :=
  ⟨by decide, rfl, by decide,
   (C5_copy_best_effort envOk "s" "S" none [[exDoc]] "dst" "copy" 0 (by decide) rfl
     (by decide)).1⟩

/-- C6: copyLeaf duplicates a native/workspace entry with exactly one
server-side copy call carrying the new name and destination parent and no
download or upload, while any other entry is downloaded chunk by chunk into a
buffer that is rewound and re-uploaded with the same mime type as a resumable
upload carrying the full content; either way the new identifier is returned. -/
theorem C6_leaf_copy_strategies (env : Env) (fileId mime : String)
    (chunks : List (List Nat)) (destId nm : String) (n : Nat)
    (hget : env.getFails fileId = false) :
    (strContains mime "application/vnd.google-apps." = true →
      env.serverCopyFails fileId = false →
      copy_file env fileId mime chunks destId nm n =
        (some (freshId n), n + 1, [Event.serverCopied fileId nm destId (freshId n)])) ∧
    (strContains mime "application/vnd.google-apps." = false →
      env.downloadFails fileId = false → env.uploadFails fileId = false →
      copy_file env fileId mime chunks destId nm n =
        (some (freshId n), n + 1,
          [Event.downloaded fileId chunks,
           Event.uploaded nm destId mime chunks.flatten true (freshId n)])) :=
  ⟨fun hm hc => copy_file_workspace env fileId mime chunks destId nm n hget hm hc,
   fun hm hd hu => copy_file_binary env fileId mime chunks destId nm n hget hm hd hu⟩

theorem C6_witness :
    envOk.getFails "f1" = false ∧
    copy_file envOk "f1" "application/vnd.google-apps.document" [] "dst" "Doc" 0 =
      (some (freshId 0), 1, [Event.serverCopied "f1" "Doc" "dst" (freshId 0)]) ∧
    copy_file envOk "f2" "image/png" [[1, 2], [3]] "dst" "Img" 0 =
      (some (freshId 0), 1,
        [Event.downloaded "f2" [[1, 2], [3]],
         Event.uploaded "Img" "dst" "image/png" [1, 2, 3] true (freshId 0)]) :=
  ⟨rfl,
   (C6_leaf_copy_strategies envOk "f1" "application/vnd.google-apps.document" []
     "dst" "Doc" 0 rfl).1 (by decide) rfl,
   (C6_leaf_copy_strategies envOk "f2" "image/png" [[1, 2], [3]]
     "dst" "Img" 0 rfl).2 (by decide) rfl rfl⟩


/-- C7: with a non-empty name, copyTree creates the new container under the
destination parent, that container's fresh identifier is what a success
returns (and where children land), and a failed creation aborts immediately
with Error and an empty effect trace; with no name or an empty name the
destination parent itself is the effective destination and, on success, the
returned identifier. -/
theorem C7_effective_destination (env : Env) (si sn : String) (failAt : Option Nat)
    (pages : List (List Node)) (destId : String) (n : Nat) :
    (∀ s : String, s ≠ "" →
      (env.createFails destId s = true →
        copy_folder env (Node.container si sn failAt pages) destId (some s) n =
          (none, n, [])) ∧
      (env.createFails destId s = false →
        (∃ extra, (copy_folder env (Node.container si sn failAt pages) destId (some s) n).2.2 =
            Event.createdFolder s destId (freshId n) :: extra) ∧
        (failHit failAt pages.length = false →
          (copy_folder env (Node.container si sn failAt pages) destId (some s) n).1 =
            some (freshId n)))) ∧
    (failHit failAt pages.length = false →
      (copy_folder env (Node.container si sn failAt pages) destId none n).1 = some destId ∧
      (copy_folder env (Node.container si sn failAt pages) destId (some "") n).1 =
        some destId) := by
  constructor
  · intro s hs
    constructor
    · intro hc
      exact copy_folder_create_failed env si sn failAt pages destId s n hs hc
    · intro hc
      constructor
      · rw [copy_folder_named env si sn failAt pages destId s n hs hc]
        rcases copyPagesLoop_events_mono env failAt (freshId n) pages 0 (n + 1)
            [Event.createdFolder s destId (freshId n)] with ⟨extra, hex⟩
        exact ⟨extra, by rw [hex]; simp⟩
      · intro hl
        rw [copy_folder_named env si sn failAt pages destId s n hs hc]
        exact copyPagesLoop_ok env failAt (freshId n) pages 0 (n + 1) _
          (failHit_false_noHit failAt pages.length hl)
  · intro hl
    constructor
    · rw [copy_folder_unnamed env si sn failAt pages destId n none rfl]
      exact copyPagesLoop_ok env failAt destId pages 0 n []
        (failHit_false_noHit failAt pages.length hl)
    · rw [copy_folder_unnamed env si sn failAt pages destId n (some "") (by simp [nameGiven])]
      exact copyPagesLoop_ok env failAt destId pages 0 n []
        (failHit_false_noHit failAt pages.length hl)

theorem C7_witness :
    ("copy" : String) ≠ "" ∧ envCreateFail.createFails "dst" "copy" = true ∧
    copy_folder envCreateFail exSrc "dst" (some "copy") 0 = (none, 0, []) ∧
    (copy_folder envOk exSrc "dst" none 0).1 = some "dst" :=
  ⟨by decide, rfl,
   ((C7_effective_destination envCreateFail "s" "S" none [[exDoc]] "dst" 0).1 "copy"
     (by decide)).1 rfl,
   ((C7_effective_destination envOk "s" "S" none [[exDoc]] "dst" 0).2 (by decide)).1⟩

/-- C8: when no page request fails, listTopLevel returns exactly the folders
of all pages concatenated in remote order, and count processes exactly the
concatenation of all pages once through its counting loop — every child seen
exactly once, none duplicated or skipped. -/
theorem C8_pagination_exhaustive (i nm : String) (failAt : Option Nat)
    (pages : List (List Node)) (r : Bool) (h : failHit failAt pages.length = false) :
    get_top_level_folders (Node.container i nm failAt pages) =
      some (pages.flatten.filterMap folderEntry) ∧
    count_items r (Node.container i nm failAt pages) =
      (some (countFold r pages.flatten 0 0 0).1,
       some (countFold r pages.flatten 0 0 0).2.1,
       some (countFold r pages.flatten 0 0 0).2.2) := by
  constructor
  · rw [show get_top_level_folders (Node.container i nm failAt pages) =
        topPagesLoop failAt 0 pages [] from by simp [get_top_level_folders]]
    rw [topPagesLoop_noHit failAt pages 0 [] (failHit_false_noHit failAt pages.length h)]
    simp
  · rw [show count_items r (Node.container i nm failAt pages) =
        countPagesLoop r failAt 0 pages 0 0 0 from by simp [count_items]]
    exact countPagesLoop_noHit r failAt pages 0 0 0 0
      (failHit_false_noHit failAt pages.length h)

theorem C8_witness :
    failHit (none : Option Nat)
      ([[exLeafTxt], [exD], [Node.leaf "h" "H" "image/png" []]] : List (List Node)).length =
        false ∧
    get_top_level_folders exPaged = some [("d", "D")] ∧
    count_items true exPaged = (some 2, some 1, some 1) :=
  ⟨by decide,
   (C8_pagination_exhaustive "p" "P" none
     [[exLeafTxt], [exD], [Node.leaf "h" "H" "image/png" []]] true (by decide)).1,
   (C8_pagination_exhaustive "p" "P" none
     [[exLeafTxt], [exD], [Node.leaf "h" "H" "image/png" []]] true (by decide)).2⟩

/-- C9: with a successful listing, non-recursive counting returns
nested_folder_count = 0 while folder_count still counts the immediate
subfolders and file_count the visible files, and over a container whose
children are all leaves the non-recursive and recursive counts agree. -/
theorem C9_nonrecursive_agreement (i nm : String) (failAt : Option Nat)
    (pages : List (List Node)) (h : failHit failAt pages.length = false) :
    ((∀ x ∈ pages.flatten, isLeafB x = true) →
      count_items false (Node.container i nm failAt pages) =
        count_items true (Node.container i nm failAt pages)) ∧
    count_items false (Node.container i nm failAt pages) =
      (some (flatFiles pages.flatten), some (flatFolders pages.flatten), some 0) := by
  have hno := failHit_false_noHit failAt pages.length h
  have hfalse : count_items false (Node.container i nm failAt pages) =
      countPagesLoop false failAt 0 pages 0 0 0 := by simp [count_items]
  have htrue : count_items true (Node.container i nm failAt pages) =
      countPagesLoop true failAt 0 pages 0 0 0 := by simp [count_items]
  constructor
  · intro hleaves
    rw [hfalse, htrue, countPagesLoop_noHit false failAt pages 0 0 0 0 hno,
        countPagesLoop_noHit true failAt pages 0 0 0 0 hno,
        countFold_all_leaves pages.flatten hleaves]
  · rw [hfalse, countPagesLoop_noHit false failAt pages 0 0 0 0 hno,
        countFold_false_eval]
    simp

theorem C9_witness :
    failHit (none : Option Nat) (1 : Nat) = false ∧
    count_items false exFlat = count_items true exFlat ∧
    count_items false exFlat = (some 2, some 0, some 0) :=
  ⟨rfl,
   (C9_nonrecursive_agreement "c" "C" none
     [[exLeafTxt, Node.leaf "g" "G" "image/png" [[1]]]] (by decide)).1 (by decide),
   (C9_nonrecursive_agreement "c" "C" none
     [[exLeafTxt, Node.leaf "g" "G" "image/png" [[1]]]] (by decide)).2⟩

/-- C10: an Error return from copyTree does not mean the remote state is
unchanged: with no call failures except a listing failure on the source's
second page, copyTree on exSrcFail returns None even though the destination
container was already created and the first page's document was already copied
into it. -/
theorem C10_error_after_partial_copy :
    copy_folder envOk exSrcFail "dst" (some "copy") 0 =
      (none, 2, [Event.createdFolder "copy" "dst" "id0",
                 Event.serverCopied "f1" "Doc" "id0" "id1"]) ∧
    Event.createdFolder "copy" "dst" "id0" ∈
      (copy_folder envOk exSrcFail "dst" (some "copy") 0).2.2 := by decide

end DriveUtils
